import Mathlib

/-!
Shallow embedding of the PDAL pipeline-engine core (src/src/Stage.cpp and
src/src/StageFactory.cpp) and proofs about it.

Conventions of the embedding:
* Stages are identified by natural numbers; a stage DAG is a function
  `ins : Nat -> List Nat` giving each stage its ordered list of upstream
  inputs.  Acyclicity is expressed by a topological numbering
  (`WfDag`: every input of a stage has a smaller index), which every
  finite acyclic DAG admits up to relabeling.
* Recursive walks over the DAG are written with an explicit fuel
  argument; all lemmas carry the hypothesis that the fuel exceeds the
  stage index, which under `WfDag` makes the walk independent of fuel.
* C++ strings are Lean `String`s; case-insensitive boost operations are
  modelled by ASCII lowering, matching boost defaults on the inputs the
  code uses.
* `std::map` registries are modelled as association lists in insertion
  order: `mapInsert` has the no-overwrite semantics of `std::map::insert`
  and `mapFind` the semantics of `std::map::find`.  Only exact-key
  lookup and insertion are used by the modelled code, for which this is
  observationally identical to the sorted tree.
* Constructor pointers (`ReaderCreator` etc.) are opaque and modelled by
  `Nat` identifiers; invoking a constructor yields the stage it produces,
  identified by the same number.
-/

/-! ## ASCII string helpers (boost case-insensitive algorithms) -/

/-- ASCII lower-casing of one character, as `std::tolower` in the C locale. -/
def lowerChar (c : Char) : Char :=
  if 'A' ≤ c ∧ c ≤ 'Z' then Char.ofNat (c.toNat + 32) else c

/-- Lower-case a string character by character. -/
def strLower (s : String) : String := String.mk (s.data.map lowerChar)

/-- boost iequals: case-insensitive string equality. -/
def iequals (a b : String) : Bool := strLower a == strLower b

/-- boost istarts_with: case-insensitive test that `pat` begins `s`. -/
def istartsWith (s pat : String) : Bool :=
  (strLower pat).data.isPrefixOf (strLower s).data

/-- boost iends_with: case-insensitive test that `pat` ends `s`. -/
def iendsWith (s pat : String) : Bool :=
  (strLower pat).data.isSuffixOf (strLower s).data

/-- A single-quote character, used to reproduce the C++ error strings. -/
def squote : String := String.singleton (Char.ofNat 39)

/-! ## Options (Stage::addConditionalOptions)

The `Options` container itself is not under src/.  Modelled from the
spec: an ordered multimap of (name, value) pairs; `hasOption` tests
whether a name is present; `add` appends.  Values are an arbitrary
type. -/

/-- Modelled from the spec: `Options` is an ordered collection of
(name, value) pairs; missing from src/ (only its caller
`Stage::addConditionalOptions` is there). -/
abbrev OptionsM (V : Type) : Type := List (String × V)

/-- Modelled from the spec: `Options::hasOption` tests name membership. -/
def hasOption {V : Type} (opts : OptionsM V) (name : String) : Bool :=
  opts.any (fun o => o.1 == name)

/-- Modelled from the spec: `Options::add` appends a (name, value) pair. -/
def addOption {V : Type} (opts : OptionsM V) (name : String) (v : V) :
    OptionsM V :=
  opts ++ [(name, v)]

/-- `Stage::addConditionalOptions` (Stage.cpp:59-64): for each incoming
option, add it only when no option with the same name already exists. -/
def addConditionalOptions {V : Type} (mOptions : OptionsM V)
    (opts : OptionsM V) : OptionsM V :=
  opts.foldl
    (fun acc o => if hasOption acc o.1 then acc else addOption acc o.1 o.2)
    mOptions

/-! ## Metadata nodes and Stage::setSpatialReference -/

/-- A spatial reference; `getWKT` with the two mode arguments used by
`Stage::setSpatialReference` is modelled by the two projections. -/
structure SpatialRef where
  horizWKT : String
  compWKT : String
deriving DecidableEq, Repr

/-- One metadata child node: name, value, description.  Modelled from the
spec: the metadata tree has named nodes with values, child lookup by
predicate; `add` appends a child (the `MetadataNode` class is not under
src/). -/
structure MNode where
  name : String
  value : String
  descr : String
deriving DecidableEq, Repr

/-- The children of a stage metadata subtree. -/
abbrev MChildren : Type := List MNode

/-- `MetadataNode::findChild` with the predicate of
`Stage::setSpatialReference` (name = "spatialreference"); returns the
first matching child, `none` standing for the empty node. -/
def findSpatialChild (m : MChildren) : Option MNode :=
  m.find? (fun c => c.name == "spatialreference")

/-- `Stage::setSpatialReference(MetadataNode&, const SpatialReference&)`
(Stage.cpp:245-262): always assign the member field; add the two WKT
nodes only when no "spatialreference" child exists yet.  Returns the
new field value and the new metadata children. -/
def setSpatialReference (m : MChildren) (spatialRef : SpatialRef) :
    SpatialRef × MChildren :=
  (spatialRef,
    match findSpatialChild m with
    | some _ => m
    | none =>
        m ++ [⟨"spatialreference", spatialRef.horizWKT, "SRS of this stage"⟩,
              ⟨"comp_spatialreference", spatialRef.compWKT,
               "SRS of this stage"⟩])

/-! ## The StageFactory registries (std::map semantics) -/

/-- A registry: association list from driver-type name to constructor
identifier, in insertion order. -/
abbrev Registry : Type := List (String × Nat)

/-- `std::map::find` by exact key. -/
def mapFind (m : Registry) (k : String) : Option Nat :=
  (m.find? (fun p => p.1 == k)).map (fun p => p.2)

/-- `std::map::insert`: no effect when the key is already present. -/
def mapInsert (m : Registry) (k : String) (v : Nat) : Registry :=
  if (m.find? (fun p => p.1 == k)).isSome then m else m ++ [(k, v)]

/-- `StageFactory::registerReader` (StageFactory.cpp:288-292):
`m_readerCreators.insert({type, f})`. -/
def registerReader (m : Registry) (type : String) (f : Nat) : Registry :=
  mapInsert m type f

/-- `StageFactory::registerFilter` (StageFactory.cpp:295-299). -/
def registerFilter (m : Registry) (type : String) (f : Nat) : Registry :=
  mapInsert m type f

/-- `StageFactory::registerWriter` (StageFactory.cpp:302-306). -/
def registerWriter (m : Registry) (type : String) (f : Nat) : Registry :=
  mapInsert m type f

/-- `findFirst` / `StageFactory::getReaderCreator`
(StageFactory.cpp:260-273): `map::find`, null when absent. -/
def getReaderCreator (m : Registry) (type : String) : Option Nat :=
  mapFind m type

/-- `StageFactory::getFilterCreator` (StageFactory.cpp:276-279). -/
def getFilterCreator (m : Registry) (type : String) : Option Nat :=
  mapFind m type

/-- `StageFactory::getWriterCreator` (StageFactory.cpp:282-285). -/
def getWriterCreator (m : Registry) (type : String) : Option Nat :=
  mapFind m type

/-- The exact exception message of `StageFactory::createReader`
(StageFactory.cpp:222-224). -/
def readerErrMsg (type : String) : String :=
  "Unable to create reader for type " ++ squote ++ type ++ squote ++
    ". Does a driver with this type name exist?"

/-- The exact exception message of `StageFactory::createFilter`
(StageFactory.cpp:236-238). -/
def filterErrMsg (type : String) : String :=
  "Unable to create filter for type " ++ squote ++ type ++ squote ++
    ". Does a driver with this type name exist?"

/-- The exact exception message of `StageFactory::createWriter`
(StageFactory.cpp:250-253). -/
def writerErrMsg (type : String) : String :=
  "Unable to create writer for type " ++ squote ++ type ++ squote ++
    ". Does a driver with this type name exist?"

/-- `StageFactory::createReader` (StageFactory.cpp:217-228): look up the
creator; throw `pdal_error` with a message naming the type when absent,
otherwise invoke it.  The registry is returned alongside to make the
absence of mutation explicit. -/
def createReader (m : Registry) (type : String) :
    Except String Nat × Registry :=
  match getReaderCreator m type with
  | none => (Except.error (readerErrMsg type), m)
  | some f => (Except.ok f, m)

/-- `StageFactory::createFilter` (StageFactory.cpp:231-242). -/
def createFilter (m : Registry) (type : String) :
    Except String Nat × Registry :=
  match getFilterCreator m type with
  | none => (Except.error (filterErrMsg type), m)
  | some f => (Except.ok f, m)

/-- `StageFactory::createWriter` (StageFactory.cpp:245-257). -/
def createWriter (m : Registry) (type : String) :
    Except String Nat × Registry :=
  match getWriterCreator m type with
  | none => (Except.error (writerErrMsg type), m)
  | some f => (Except.ok f, m)

/-! ## boost::filesystem path helpers

`extension`/`stem` split the last path component at its last dot,
special-casing the components "." and "..", as boost::filesystem V3
does.  Strings are handled as character lists. -/

/-- The last path component (text after the last slash). -/
def pathComp (l : List Char) : List Char :=
  l.foldl (fun acc c => if c = '/' then [] else acc ++ [c]) []

/-- The components "." and ".." carry no extension. -/
def isDotComp (c : List Char) : Bool := c == ['.'] || c == ['.', '.']

/-- Index of the last dot of a component, if any. -/
def lastDotIdx : List Char → Option Nat
  | [] => none
  | c :: rest =>
    match lastDotIdx rest with
    | some i => some (i + 1)
    | none => if c = '.' then some 0 else none

/-- `boost::filesystem::extension` / `path::extension` on a raw string:
the part of the last component from its last dot on (dot included). -/
def extL (s : List Char) : List Char :=
  let c := pathComp s
  if isDotComp c then []
  else
    match lastDotIdx c with
    | none => []
    | some i => c.drop i

/-- `boost::filesystem::path::stem`: the last component minus the
extension. -/
def stemL (s : List Char) : List Char :=
  let c := pathComp s
  if isDotComp c then c
  else
    match lastDotIdx c with
    | none => c
    | some i => c.take i

/-- The basename loop of `StageFactory::loadPlugins`
(StageFactory.cpp:406-413) and `registerPlugin`
(StageFactory.cpp:463-470): repeatedly take the stem while an extension
remains, fuelled.  Each iteration strictly shortens the component, so a
fuel of the string length covers every run of the loop. -/
def stripStemsF : Nat → List Char → List Char
  | 0, t => t
  | f + 1, t => if extL t = [] then t else stripStemsF f (stemL t)

/-- The canonical basename the two loops compute: the fully stripped
stem, or the empty (default-constructed) string when the input has no
extension at all, in which case the loop body never assigns it. -/
def basenameL (s : List Char) : List Char :=
  if extL s = [] then [] else stripStemsF s.length s

/-- `basenameL` lifted to `String`. -/
def basenameOf (s : String) : String := String.mk (basenameL s.data)

/-- `boost::filesystem::extension` lifted to `String`. -/
def extensionOf (s : String) : String := String.mk (extL s.data)

/-! ## StageFactory::inferWriterDriver -/

/-- The extension-to-driver table of `StageFactory::inferWriterDriver`
(StageFactory.cpp:163-178); `hasW` is the writer registry lookup
(`getWriterCreator(...) != null`) guarding the optional entries. -/
def writerDrivers (hasW : String → Bool) : List (String × String) :=
  [("las", "drivers.las.writer"), ("laz", "drivers.las.writer")]
    ++ (if hasW "drivers.pcd.writer" then [("pcd", "drivers.pcd.writer")]
        else [])
    ++ (if hasW "drivers.pclvisualizer.writer" then
          [("pclviz", "drivers.pclvisualizer.writer")]
        else [])
    ++ [("sbet", "writers.sbet"), ("csv", "drivers.text.writer"),
        ("json", "drivers.text.writer"), ("xyz", "drivers.text.writer"),
        ("txt", "drivers.text.writer")]
    ++ (if hasW "drivers.nitf.writer" then [("ntf", "drivers.nitf.writer")]
        else [])
    ++ [("sqlite", "drivers.sqlite.writer")]

/-- `std::map::operator[]` read of the driver table: the mapped value,
or the default-constructed empty string when the key is absent. -/
def lookupDefault (m : List (String × String)) (k : String) : String :=
  ((m.find? (fun p => p.1 == k)).map (fun p => p.2)).getD ""

/-- `StageFactory::inferWriterDriver` (StageFactory.cpp:157-192):
lower-case the extension, special-case a case-insensitive "STDOUT"
filename and an absent or bare-dot extension to the text driver, then
look the extension up in the table (empty result when unmapped). -/
def inferWriterDriver (hasW : String → Bool) (filename : String) : String :=
  let ext := strLower (extensionOf filename)
  let drivers := writerDrivers hasW
  if iequals filename "STDOUT" then lookupDefault drivers "txt"
  else if ext == "" then lookupDefault drivers "txt"
  else
    let ext2 := String.mk (ext.data.drop 1)
    if ext2 == "" then lookupDefault drivers "txt"
    else lookupDefault drivers (strLower ext2)

/-! ## Plugin discovery (StageFactory::loadPlugins / registerPlugin) -/

/-- One directory entry: the filename and whether
`symlink_status().type() == symlink_file`. -/
abbrev DirEntry : Type := String × Bool

/-- The candidate filter of `loadPlugins` (StageFactory.cpp:391-396):
name starts with "libpdal_plugin" (case-insensitively) and the
extension case-insensitively ends with DLL, DYLIB or SO. -/
def isPluginCandidate (name : String) : Bool :=
  istartsWith name "libpdal_plugin" &&
    (iendsWith (extensionOf name) "DLL" || iendsWith (extensionOf name) "DYLIB"
      || iendsWith (extensionOf name) "SO")

/-- Lookup in the basename-to-entry map. -/
def pmFind (m : List (String × DirEntry)) (b : String) : Option DirEntry :=
  (m.find? (fun p => p.1 == b)).map (fun p => p.2)

/-- Replace the entry stored under basename `b` (the map iterator
assignment `i->second = p`). -/
def pmUpdate (m : List (String × DirEntry)) (b : String) (e : DirEntry) :
    List (String × DirEntry) :=
  m.map (fun p => if p.1 == b then (p.1, e) else p)

/-- One iteration of the collection loop of `loadPlugins`
(StageFactory.cpp:387-437): skip non-candidates; insert the first entry
for a basename; replace the stored entry only when the later entry is a
symlink. -/
def scanStep (m : List (String × DirEntry)) (e : DirEntry) :
    List (String × DirEntry) :=
  if isPluginCandidate e.1 then
    let b := basenameOf e.1
    match pmFind m b with
    | none => m ++ [(b, e)]
    | some _ => if e.2 then pmUpdate m b e else m
  else m

/-- The `pluginFilenames` map built by scanning one directory. -/
def collectPlugins (entries : List DirEntry) : List (String × DirEntry) :=
  entries.foldl scanStep []

/-- Case-insensitive removal of the first occurrence of `pat`
(boost ireplace_first_copy with empty replacement), on char lists. -/
def ireplFirstL (s pat : List Char) : List Char :=
  match s with
  | [] => []
  | c :: rest =>
    if (pat.map lowerChar).isPrefixOf (List.map lowerChar (c :: rest)) then
      (c :: rest).drop pat.length
    else c :: ireplFirstL rest pat

/-- `ireplFirstL` lifted to `String`. -/
def ireplaceFirst (s pat : String) : String :=
  String.mk (ireplFirstL s.data pat.data)

/-- The logical plugin name `registerPlugin` derives
(StageFactory.cpp:472-473): basename with the "libpdal_plugin_" prefix
removed. -/
def pluginNameOf (filename : String) : String :=
  ireplaceFirst (basenameOf filename) "libpdal_plugin_"

/-- The plugin names registered from one scanned directory: one
`registerPlugin` call per collected basename (StageFactory.cpp:441-454). -/
def registeredPlugins (entries : List DirEntry) : List String :=
  (collectPlugins entries).map (fun p => pluginNameOf p.2.1)

/-! ## The stage DAG and the prepare phase (Stage::prepare)

A DAG is `ins : Nat -> List Nat`; `WfDag` is the topological numbering
expressing acyclicity.  `prepTr` is the sequence of per-stage
initializations (`l_processOptions` / `l_initialize` / `initialize` /
`addDimensions`, which `Stage::prepare` runs back to back for the
current stage after recursing into all inputs); one list element per
prepare call, carrying the stage prepared. -/

/-- Acyclicity via topological numbering: inputs have smaller indices. -/
def WfDag (ins : Nat → List Nat) : Prop := ∀ i j, j ∈ ins i → j < i

/-- `Stage::prepare` (Stage.cpp:74-91) as the sequence of stages whose
initialization steps run, fuelled.  Each call first prepares every
input in order, then initializes itself. -/
def prepTr (ins : Nat → List Nat) : Nat → Nat → List Nat
  | 0, _ => []
  | f + 1, i => ((ins i).map (prepTr ins f)).flatten ++ [i]

/-- The initialization sequence of `prepare` called on terminal `i`. -/
def prepareTrace (ins : Nat → List Nat) (i : Nat) : List Nat :=
  prepTr ins (i + 1) i

/-- Number of distinct downstream-to-upstream paths from `i` to `s`,
fuelled. -/
def pathCnt (ins : Nat → List Nat) : Nat → Nat → Nat → Nat
  | 0, _, _ => 0
  | f + 1, i, s =>
    if i = s then 1 else ((ins i).map (fun j => pathCnt ins f j s)).sum

/-- Number of paths from the terminal `i` to `s`. -/
def pathCount (ins : Nat → List Nat) (i s : Nat) : Nat :=
  pathCnt ins (i + 1) i s

/-- Reachability from `i` to `s` along input edges, fuelled. -/
def reachB (ins : Nat → List Nat) : Nat → Nat → Nat → Bool
  | 0, _, _ => false
  | f + 1, i, s => i == s || (ins i).any (fun j => reachB ins f j s)

/-- `s` is reachable from the terminal stage `i` (including `s = i`). -/
def reachable (ins : Nat → List Nat) (i s : Nat) : Bool :=
  reachB ins (i + 1) i s

/-- Checker for upstream-before-downstream order: walking the
initialization sequence, every stage must have all of its inputs among
the stages already initialized. -/
def orderedB (ins : Nat → List Nat) : List Nat → List Nat → Bool
  | _, [] => true
  | seen, s :: rest =>
    (ins s).all (fun j => seen.contains j) && orderedB ins (s :: seen) rest

/-- The shared metadata tree across a `prepare` call: `md` is the list
of child names already under the table root; every `l_initialize`
(Stage.cpp:152-155) appends one subtree node named after its stage
(`table.metadata().add(getName())`), after the inputs were prepared in
order.  Stage names are their indices. -/
def prepMeta (ins : Nat → List Nat) : Nat → Nat → List Nat → List Nat
  | 0, _, md => md
  | f + 1, i, md =>
    ((ins i).foldl (fun acc j => prepMeta ins f j acc) md) ++ [i]

/-- Metadata root children after `prepare` on terminal `i`, starting
from children `md`. -/
def metadataAfterPrepare (ins : Nat → List Nat) (i : Nat) (md : List Nat) :
    List Nat :=
  prepMeta ins (i + 1) i md

/-! ## The execute phase (Stage::execute)

`execTr` records the observable actions of `Stage::execute`
(Stage.cpp:95-149) in program order: set the log level to Debug
(line 101), finalize the shared layout (line 107), create a fresh view
when no inputs exist or recurse into every input (lines 110-126), run
the ready hook (line 131), start one StageRunner per input view
(lines 132-138), and run the done hooks (lines 146-147).  The per-view
`run` hooks are stage-specific and out of scope; view counts are
threaded through unchanged. -/

/-- Observable events of `Stage::execute`. -/
inductive Ev where
  | setLevel (i lvl : Nat)
  | finalize (i : Nat)
  | newView (i : Nat)
  | ready (i : Nat)
  | run (i : Nat)
  | done (i : Nat)
deriving DecidableEq, Repr

/-- `LogLevel::Enum::Debug`; the numeral (taken from the library log
header, which is not under src/) is irrelevant to every claim, only
that `execute` sets the same level for every stage. -/
def debugLevel : Nat := 3

/-- Number of views entering a stage, fuelled: a stage without inputs
synthesizes one fresh view, otherwise the union of the input sets. -/
def viewCnt (ins : Nat → List Nat) : Nat → Nat → Nat
  | 0, _ => 0
  | f + 1, i =>
    if ins i = [] then 1 else ((ins i).map (viewCnt ins f)).sum

/-- The event sequence of `Stage::execute`, fuelled. -/
def execTr (ins : Nat → List Nat) : Nat → Nat → List Ev
  | 0, _ => []
  | f + 1, i =>
    Ev.setLevel i debugLevel :: Ev.finalize i ::
      ((if ins i = [] then [Ev.newView i]
        else ((ins i).map (execTr ins f)).flatten)
        ++ Ev.ready i :: List.replicate (viewCnt ins (f + 1) i) (Ev.run i)
        ++ [Ev.done i])

/-- The event sequence of `execute` called on terminal `i`. -/
def executeTrace (ins : Nat → List Nat) (i : Nat) : List Ev :=
  execTr ins (i + 1) i

/-- Number of `execute` calls performed, fuelled: one per stage per
path. -/
def callCnt (ins : Nat → List Nat) : Nat → Nat → Nat
  | 0, _ => 0
  | f + 1, i => 1 + ((ins i).map (callCnt ins f)).sum

/-- The finalize events of a trace. -/
def isFinalizeEv : Ev → Bool
  | Ev.finalize _ => true
  | _ => false

/-- The events that set a log level to Debug. -/
def isSetDebugEv : Ev → Bool
  | Ev.setLevel _ lvl => lvl == debugLevel
  | _ => false

/-- Pointwise update of the per-stage log levels. -/
def updF (lv : Nat → Nat) (i v : Nat) : Nat → Nat :=
  fun j => if j = i then v else lv j

/-- Replay the log levels over an event sequence. -/
def applyEv (lv : Nat → Nat) : List Ev → (Nat → Nat)
  | [] => lv
  | Ev.setLevel i l :: r => applyEv (updF lv i l) r
  | _ :: r => applyEv lv r

/-- Checker: replaying the levels, every ready / run / done hook of a
stage executes while that stage's effective log level is Debug. -/
def debugOk (lv : Nat → Nat) : List Ev → Bool
  | [] => true
  | Ev.setLevel i l :: r => debugOk (updF lv i l) r
  | Ev.ready i :: r => (lv i == debugLevel) && debugOk lv r
  | Ev.run i :: r => (lv i == debugLevel) && debugOk lv r
  | Ev.done i :: r => (lv i == debugLevel) && debugOk lv r
  | Ev.finalize _ :: r => debugOk lv r
  | Ev.newView _ :: r => debugOk lv r

/-- The log level `Stage::l_processOptions` (Stage.cpp:158-207)
configures from the "debug" and "verbose" options: the verbosity,
forced to at least 1 when the debug flag is set (the source performs
the forcing twice verbatim; the second application is the identity). -/
def lProcessLevel (debug : Bool) (verbose : Nat) : Nat :=
  let v1 := if debug && decide (verbose = 0) then 1 else verbose
  if debug && decide (v1 = 0) then 1 else v1

/-! ## Lemmas about the prepare phase -/

theorem prepTr_mem_le {ins : Nat → List Nat} (hwf : WfDag ins) :
    ∀ f i, i < f → ∀ x ∈ prepTr ins f i, x ≤ i := by
  intro f
  induction f with
  | zero => intro i hi; omega
  | succ f ih =>
    intro i hi x hx
    simp only [prepTr, List.mem_append, List.mem_flatten, List.mem_map,
      List.mem_singleton] at hx
    rcases hx with ⟨l, ⟨j, hj, rfl⟩, hxl⟩ | rfl
    · have hji := hwf i j hj
      have := ih j (by omega) x hxl
      omega
    · exact Nat.le_refl x

theorem prepTr_self_mem {ins : Nat → List Nat} :
    ∀ f i, i < f → i ∈ prepTr ins f i := by
  intro f i hi
  match f, hi with
  | f + 1, _ => simp [prepTr]

theorem prepTr_count {ins : Nat → List Nat} (hwf : WfDag ins) :
    ∀ f i s, i < f → (prepTr ins f i).count s = pathCnt ins f i s := by
  intro f
  induction f with
  | zero => intro i s hi; omega
  | succ f ih =>
    intro i s hi
    by_cases his : i = s
    · subst his
      rw [show prepTr ins (f + 1) i =
        ((ins i).map (prepTr ins f)).flatten ++ [i] from rfl,
        List.count_append, List.count_flatten, List.map_map,
        show pathCnt ins (f + 1) i i = 1 from by simp [pathCnt]]
      have hz : ((ins i).map (List.count i ∘ prepTr ins f)).sum = 0 := by
        apply List.sum_eq_zero
        intro x hx
        obtain ⟨j, hj, rfl⟩ := List.mem_map.1 hx
        have hji := hwf i j hj
        simp only [Function.comp]
        rw [List.count_eq_zero]
        intro hmem
        have := prepTr_mem_le hwf f j (by omega) i hmem
        omega
      have hone : List.count i [i] = 1 := by simp
      omega
    · rw [show prepTr ins (f + 1) i =
        ((ins i).map (prepTr ins f)).flatten ++ [i] from rfl,
        List.count_append, List.count_flatten, List.map_map,
        show pathCnt ins (f + 1) i s =
          ((ins i).map (fun j => pathCnt ins f j s)).sum from by
            simp [pathCnt, his]]
      have hone : List.count s [i] = 0 := by
        simp [List.count_cons, his]
      rw [hone]
      have : ((ins i).map (List.count s ∘ prepTr ins f)).sum =
          ((ins i).map (fun j => pathCnt ins f j s)).sum := by
        apply congrArg
        apply List.map_congr_left
        intro j hj
        have hji := hwf i j hj
        exact ih j s (by omega)
      omega

theorem pathCnt_pos_iff {ins : Nat → List Nat} (hwf : WfDag ins) :
    ∀ f i s, i < f → (0 < pathCnt ins f i s ↔ reachB ins f i s = true) := by
  intro f
  induction f with
  | zero => intro i s hi; omega
  | succ f ih =>
    intro i s hi
    by_cases his : i = s
    · subst his
      simp [pathCnt, reachB]
    · simp only [pathCnt, reachB, if_neg his, beq_iff_eq, Bool.or_eq_true,
        List.any_eq_true]
      constructor
      · intro hpos
        have : ¬ (∀ x ∈ (ins i).map (fun j => pathCnt ins f j s), x = 0) := by
          intro hall
          rw [List.sum_eq_zero hall] at hpos
          omega
        push_neg at this
        obtain ⟨x, hx, hxne⟩ := this
        obtain ⟨j, hj, rfl⟩ := List.mem_map.1 hx
        have hji := hwf i j hj
        exact Or.inr ⟨j, hj, (ih j s (by omega)).1 (by omega)⟩
      · rintro (h | ⟨j, hj, hr⟩)
        · exact absurd h his
        · have hji := hwf i j hj
          have hpos := (ih j s (by omega)).2 hr
          have hmem : pathCnt ins f j s ∈
              (ins i).map (fun j => pathCnt ins f j s) :=
            List.mem_map_of_mem _ hj
          calc 0 < pathCnt ins f j s := hpos
            _ ≤ ((ins i).map (fun j => pathCnt ins f j s)).sum :=
              List.single_le_sum (fun x _ => Nat.zero_le x) _ hmem

theorem orderedB_append {ins : Nat → List Nat} :
    ∀ (xs ys seen : List Nat),
      orderedB ins seen (xs ++ ys) =
        (orderedB ins seen xs && orderedB ins (xs.reverse ++ seen) ys) := by
  intro xs
  induction xs with
  | nil => intro ys seen; simp [orderedB]
  | cons s xs ih =>
    intro ys seen
    simp only [List.cons_append, orderedB, List.append_eq, ih,
      List.reverse_cons, List.append_assoc, List.singleton_append,
      List.nil_append, Bool.and_assoc]

theorem orderedB_flatten {ins : Nat → List Nat} :
    ∀ ls : List (List Nat),
      (∀ l ∈ ls, ∀ seen, orderedB ins seen l = true) →
      ∀ seen, orderedB ins seen ls.flatten = true := by
  intro ls
  induction ls with
  | nil => intro _ seen; simp [orderedB]
  | cons l ls ih =>
    intro h seen
    rw [List.flatten_cons, orderedB_append,
      h l (List.mem_cons_self l ls),
      ih (fun l' hl' => h l' (List.mem_cons_of_mem l hl')) _]
    rfl

theorem prepTr_ordered {ins : Nat → List Nat} (hwf : WfDag ins) :
    ∀ f i, i < f → ∀ seen, orderedB ins seen (prepTr ins f i) = true := by
  intro f
  induction f with
  | zero => intro i hi; omega
  | succ f ih =>
    intro i hi seen
    rw [show prepTr ins (f + 1) i =
      ((ins i).map (prepTr ins f)).flatten ++ [i] from rfl]
    rw [orderedB_append]
    have h1 : orderedB ins seen (((ins i).map (prepTr ins f)).flatten) = true := by
      apply orderedB_flatten
      intro l hl seen'
      obtain ⟨j, hj, rfl⟩ := List.mem_map.1 hl
      have hji := hwf i j hj
      exact ih j (by omega) seen'
    rw [h1]
    simp only [Bool.true_and, orderedB, Bool.and_true, List.all_eq_true]
    intro j hj
    have hji := hwf i j hj
    have hjmem : j ∈ ((ins i).map (prepTr ins f)).flatten :=
      List.mem_flatten.2 ⟨prepTr ins f j, List.mem_map_of_mem _ hj,
        prepTr_self_mem f j (by omega)⟩
    simp only [List.contains_eq_any_beq, List.any_eq_true, beq_iff_eq]
    exact ⟨j, by simp [hjmem], rfl⟩

theorem prepMeta_eq {ins : Nat → List Nat} (hwf : WfDag ins) :
    ∀ f i, i < f → ∀ md, prepMeta ins f i md = md ++ prepTr ins f i := by
  intro f
  induction f with
  | zero => intro i hi; omega
  | succ f ih =>
    intro i hi md
    have hfold : ∀ l : List Nat, (∀ j ∈ l, j < i) → ∀ md' : List Nat,
        l.foldl (fun acc j => prepMeta ins f j acc) md' =
          md' ++ (l.map (prepTr ins f)).flatten := by
      intro l
      induction l with
      | nil => intro _ md'; simp
      | cons j l ihl =>
        intro hl md'
        simp only [List.foldl_cons, List.map_cons, List.flatten_cons]
        rw [ih j (by have := hl j (List.mem_cons_self j l); omega) md',
          ihl (fun j' hj' => hl j' (List.mem_cons_of_mem j hj')) _,
          List.append_assoc]
    rw [show prepMeta ins (f + 1) i md =
      ((ins i).foldl (fun acc j => prepMeta ins f j acc) md) ++ [i] from rfl]
    rw [hfold (ins i) (fun j hj => hwf i j hj) md,
      show prepTr ins (f + 1) i =
        ((ins i).map (prepTr ins f)).flatten ++ [i] from rfl,
      List.append_assoc]

/-! ## Lemmas about the execute phase -/

theorem applyEv_append :
    ∀ (xs ys : List Ev) (lv : Nat → Nat),
      applyEv lv (xs ++ ys) = applyEv (applyEv lv xs) ys := by
  intro xs
  induction xs with
  | nil => intro ys lv; rfl
  | cons e xs ih => intro ys lv; cases e <;> simp [applyEv, ih]

theorem applyEv_replicate_run (n i : Nat) :
    ∀ lv : Nat → Nat, applyEv lv (List.replicate n (Ev.run i)) = lv := by
  induction n with
  | zero => intro lv; rfl
  | succ n ih => intro lv; simp [List.replicate_succ, applyEv, ih]

theorem execTr_applyEv_high {ins : Nat → List Nat} (hwf : WfDag ins) :
    ∀ f i, i < f → ∀ (lv : Nat → Nat) (j : Nat), i < j →
      applyEv lv (execTr ins f i) j = lv j := by
  intro f
  induction f with
  | zero => intro i hi; omega
  | succ f ih =>
    intro i hi lv j hij
    have hfl : ∀ (l : List Nat), (∀ k ∈ l, k < i) → ∀ lv' : Nat → Nat,
        applyEv lv' ((l.map (execTr ins f)).flatten) j = lv' j := by
      intro l
      induction l with
      | nil => intro _ lv'; rfl
      | cons k l ihl =>
        intro hl lv'
        simp only [List.map_cons, List.flatten_cons, applyEv_append]
        rw [ihl (fun k' hk' => hl k' (List.mem_cons_of_mem k hk')) _]
        have hk := hl k (List.mem_cons_self k l)
        exact ih k (by omega) lv' j (by omega)
    rw [show execTr ins (f + 1) i =
      Ev.setLevel i debugLevel :: Ev.finalize i ::
        ((if ins i = [] then [Ev.newView i]
          else ((ins i).map (execTr ins f)).flatten)
          ++ Ev.ready i ::
            List.replicate (viewCnt ins (f + 1) i) (Ev.run i)
          ++ [Ev.done i]) from rfl]
    simp only [applyEv]
    rw [applyEv_append]
    simp only [applyEv]
    rw [applyEv_append]
    simp only [applyEv]
    rw [applyEv_replicate_run]
    have hbr : applyEv (updF lv i debugLevel)
        (if ins i = [] then [Ev.newView i]
         else ((ins i).map (execTr ins f)).flatten) j =
        updF lv i debugLevel j := by
      by_cases hleaf : ins i = []
      · simp [hleaf, applyEv]
      · rw [if_neg hleaf]
        exact hfl (ins i) (fun k hk => hwf i k hk) _
    rw [hbr]
    simp only [updF]
    rw [if_neg (by omega)]

theorem debugOk_append :
    ∀ (xs ys : List Ev) (lv : Nat → Nat),
      debugOk lv (xs ++ ys) =
        (debugOk lv xs && debugOk (applyEv lv xs) ys) := by
  intro xs
  induction xs with
  | nil => intro ys lv; rfl
  | cons e xs ih =>
    intro ys lv
    cases e <;> simp [debugOk, applyEv, ih, Bool.and_assoc]

theorem debugOk_flatten :
    ∀ ls : List (List Ev),
      (∀ l ∈ ls, ∀ lv : Nat → Nat, debugOk lv l = true) →
      ∀ lv : Nat → Nat, debugOk lv ls.flatten = true := by
  intro ls
  induction ls with
  | nil => intro _ lv; rfl
  | cons l ls ih =>
    intro h lv
    rw [List.flatten_cons, debugOk_append, h l (List.mem_cons_self l ls),
      ih (fun l' hl' => h l' (List.mem_cons_of_mem l hl')) _]
    rfl

theorem debugOk_replicate_run {lv : Nat → Nat} {i : Nat}
    (h : lv i = debugLevel) (n : Nat) :
    debugOk lv (List.replicate n (Ev.run i)) = true := by
  induction n with
  | zero => rfl
  | succ n ih => simp [List.replicate_succ, debugOk, h, ih]

theorem execTr_debugOk {ins : Nat → List Nat} (hwf : WfDag ins) :
    ∀ f i, i < f → ∀ lv : Nat → Nat,
      debugOk lv (execTr ins f i) = true := by
  intro f
  induction f with
  | zero => intro i hi; omega
  | succ f ih =>
    intro i hi lv
    have hfl : ∀ (l : List Nat), (∀ k ∈ l, k < i) → ∀ lv' : Nat → Nat,
        applyEv lv' ((l.map (execTr ins f)).flatten) i = lv' i := by
      intro l
      induction l with
      | nil => intro _ lv'; rfl
      | cons k l ihl =>
        intro hl lv'
        simp only [List.map_cons, List.flatten_cons, applyEv_append]
        rw [ihl (fun k' hk' => hl k' (List.mem_cons_of_mem k hk')) _]
        have hk := hl k (List.mem_cons_self k l)
        exact execTr_applyEv_high hwf f k (by omega) lv' i (by omega)
    rw [show execTr ins (f + 1) i =
      Ev.setLevel i debugLevel :: Ev.finalize i ::
        ((if ins i = [] then [Ev.newView i]
          else ((ins i).map (execTr ins f)).flatten)
          ++ Ev.ready i ::
            List.replicate (viewCnt ins (f + 1) i) (Ev.run i)
          ++ [Ev.done i]) from rfl]
    simp only [debugOk]
    rw [debugOk_append]
    have hb1 : debugOk (updF lv i debugLevel)
        (if ins i = [] then [Ev.newView i]
         else ((ins i).map (execTr ins f)).flatten) = true := by
      by_cases hleaf : ins i = []
      · simp [hleaf, debugOk]
      · rw [if_neg hleaf]
        apply debugOk_flatten
        intro l hl lv'
        obtain ⟨k, hk, rfl⟩ := List.mem_map.1 hl
        have hki := hwf i k hk
        exact ih k (by omega) lv'
    have hb2 : applyEv (updF lv i debugLevel)
        (if ins i = [] then [Ev.newView i]
         else ((ins i).map (execTr ins f)).flatten) i = debugLevel := by
      by_cases hleaf : ins i = []
      · simp [hleaf, applyEv, updF]
      · rw [if_neg hleaf]
        rw [hfl (ins i) (fun k hk => hwf i k hk) _]
        simp [updF]
    rw [debugOk_append, hb1]
    simp only [Bool.true_and]
    rw [applyEv_append]
    simp only [applyEv]
    rw [applyEv_replicate_run]
    simp only [debugOk, hb2, beq_self_eq_true, Bool.true_and, Bool.and_true,
      debugOk_replicate_run hb2]

theorem execTr_filter_finalize {ins : Nat → List Nat} (hwf : WfDag ins) :
    ∀ f i, i < f →
      ((execTr ins f i).filter isFinalizeEv).length = callCnt ins f i := by
  intro f
  induction f with
  | zero => intro i hi; omega
  | succ f ih =>
    intro i hi
    rw [show execTr ins (f + 1) i =
      Ev.setLevel i debugLevel :: Ev.finalize i ::
        ((if ins i = [] then [Ev.newView i]
          else ((ins i).map (execTr ins f)).flatten)
          ++ Ev.ready i ::
            List.replicate (viewCnt ins (f + 1) i) (Ev.run i)
          ++ [Ev.done i]) from rfl,
      show callCnt ins (f + 1) i =
        1 + ((ins i).map (callCnt ins f)).sum from rfl]
    by_cases hleaf : ins i = []
    · simp [hleaf, List.filter_cons, List.filter_append,
        List.filter_replicate, isFinalizeEv]
    · rw [if_neg hleaf]
      simp only [List.filter_cons, List.filter_append,
        List.filter_replicate, isFinalizeEv, if_true, if_false,
        Bool.false_eq_true, List.length_cons, List.length_append]
      rw [List.filter_flatten, List.length_flatten, List.map_map,
        List.map_map]
      have hcong : (ins i).map
            ((List.length ∘ List.filter isFinalizeEv) ∘ execTr ins f) =
          (ins i).map (callCnt ins f) := by
        apply List.map_congr_left
        intro j hj
        have hji := hwf i j hj
        exact ih j (by omega)
      rw [hcong]
      simp
      omega

theorem execTr_filter_setDebug {ins : Nat → List Nat} (hwf : WfDag ins) :
    ∀ f i, i < f →
      ((execTr ins f i).filter isSetDebugEv).length = callCnt ins f i := by
  intro f
  induction f with
  | zero => intro i hi; omega
  | succ f ih =>
    intro i hi
    rw [show execTr ins (f + 1) i =
      Ev.setLevel i debugLevel :: Ev.finalize i ::
        ((if ins i = [] then [Ev.newView i]
          else ((ins i).map (execTr ins f)).flatten)
          ++ Ev.ready i ::
            List.replicate (viewCnt ins (f + 1) i) (Ev.run i)
          ++ [Ev.done i]) from rfl,
      show callCnt ins (f + 1) i =
        1 + ((ins i).map (callCnt ins f)).sum from rfl]
    by_cases hleaf : ins i = []
    · simp [hleaf, List.filter_cons, List.filter_append,
        List.filter_replicate, isSetDebugEv]
    · rw [if_neg hleaf]
      simp only [List.filter_cons, List.filter_append,
        List.filter_replicate, isSetDebugEv, beq_self_eq_true, if_true,
        if_false, Bool.false_eq_true, List.length_cons, List.length_append]
      rw [List.filter_flatten, List.length_flatten, List.map_map,
        List.map_map]
      have hcong : (ins i).map
            ((List.length ∘ List.filter isSetDebugEv) ∘ execTr ins f) =
          (ins i).map (callCnt ins f) := by
        apply List.map_congr_left
        intro j hj
        have hji := hwf i j hj
        exact ih j (by omega)
      rw [hcong]
      simp
      omega

/-! ## Concrete pipelines used as test inputs -/

/-- A diamond DAG: terminal stage 3 reads from stages 1 and 2, both of
which read from the single reader stage 0. -/
def diamondIns : Nat → List Nat := fun i =>
  if i = 1 then [0] else if i = 2 then [0] else if i = 3 then [1, 2] else []

/-- A two-stage chain: stage 1 reads from the reader stage 0. -/
def chainIns : Nat → List Nat := fun i => if i = 1 then [0] else []

theorem diamondIns_wf : WfDag diamondIns := by
  intro i j hj
  unfold diamondIns at hj
  split_ifs at hj with h1 h2 h3 <;> simp at hj <;> omega

theorem chainIns_wf : WfDag chainIns := by
  intro i j hj
  unfold chainIns at hj
  split_ifs at hj with h1 <;> simp at hj <;> omega

/-! ## Helper lemmas for the factory -/

theorem writerDrivers_txt (hasW : String → Bool) :
    lookupDefault (writerDrivers hasW) "txt" = "drivers.text.writer" := by
  by_cases h1 : hasW "drivers.pcd.writer" <;>
    by_cases h2 : hasW "drivers.pclvisualizer.writer" <;>
      by_cases h3 : hasW "drivers.nitf.writer" <;>
        simp only [writerDrivers, h1, h2, h3, if_true, if_false,
          Bool.false_eq_true] <;> rfl

theorem collect_keys_nodup :
    ∀ (entries : List DirEntry) (m : List (String × DirEntry)),
      (m.map (fun p => p.1)).Nodup →
      (((entries.foldl scanStep m).map (fun p => p.1))).Nodup := by
  intro entries
  induction entries with
  | nil => intro m h; exact h
  | cons e es ih =>
    intro m h
    rw [List.foldl_cons]
    apply ih
    unfold scanStep
    by_cases hc : isPluginCandidate e.1
    · rw [if_pos hc]
      cases hfind : pmFind m (basenameOf e.1) with
      | none =>
        simp only
        rw [hfind]
        have hnotin : basenameOf e.1 ∉ m.map (fun p => p.1) := by
          intro hmem
          obtain ⟨p, hp, hp1⟩ := List.mem_map.1 hmem
          have := List.find?_eq_none.1 (by
            unfold pmFind at hfind
            cases hf : m.find? (fun p => p.1 == basenameOf e.1) with
            | none => rfl
            | some q => rw [hf] at hfind; simp at hfind) p hp
          simp [hp1] at this
        simp only [List.map_append, List.map_cons, List.map_nil]
        rw [List.nodup_append]
        refine ⟨h, List.nodup_singleton _, ?_⟩
        intro a ha hb
        rw [List.mem_singleton] at hb
        subst hb
        exact hnotin ha
      | some q =>
        simp only
        rw [hfind]
        by_cases hsym : e.2 = true
        · rw [if_pos hsym]
          have hkeys : (pmUpdate m (basenameOf e.1) e).map (fun p => p.1) =
              m.map (fun p => p.1) := by
            unfold pmUpdate
            rw [List.map_map]
            apply List.map_congr_left
            intro p _
            by_cases hb : p.1 = basenameOf e.1 <;> simp [hb]
          rw [hkeys]; exact h
        · rw [if_neg hsym]; exact h
    · rw [if_neg hc]; exact h

/-! ## Claim theorems -/

/-- C1 (amended): for every acyclic stage DAG, `prepare` on the terminal
stage runs each reachable stage's initialization at least once and
exactly once per distinct path from the terminal stage to it (so a stage
reachable along several paths is initialized several times, not once),
and always upstream before downstream: every initialization of a stage
happens strictly after an initialization of each of its input stages. -/
theorem C1_prepare_initializes_once_per_path
    (ins : Nat → List Nat) (t : Nat) (hwf : WfDag ins) :
    orderedB ins [] (prepareTrace ins t) = true ∧
    (∀ s, (prepareTrace ins t).count s = pathCount ins t s) ∧
    (∀ s, reachable ins t s = true ↔ 0 < (prepareTrace ins t).count s) := by
  simp only [prepareTrace, pathCount, reachable]
  refine ⟨prepTr_ordered hwf (t + 1) t (by omega) [], ?_, ?_⟩
  · intro s
    exact prepTr_count hwf (t + 1) t s (by omega)
  · intro s
    rw [prepTr_count hwf (t + 1) t s (by omega)]
    exact (pathCnt_pos_iff hwf (t + 1) t s (by omega)).symm

/-- C1 witness: the amended statement applied to the diamond DAG. -/
theorem C1_witness :
    (WfDag diamondIns ∧
      orderedB diamondIns [] (prepareTrace diamondIns 3) = true) ∧
    (prepareTrace diamondIns 3).count 0 = pathCount diamondIns 3 0 ∧
    (reachable diamondIns 3 0 = true ↔
      0 < (prepareTrace diamondIns 3).count 0) :=
  ⟨⟨diamondIns_wf,
      (C1_prepare_initializes_once_per_path diamondIns 3 diamondIns_wf).1⟩,
    (C1_prepare_initializes_once_per_path diamondIns 3 diamondIns_wf).2.1 0,
    (C1_prepare_initializes_once_per_path diamondIns 3 diamondIns_wf).2.2 0⟩

/-- C1 counterexample: the diamond DAG is acyclic and stage 0 is
reachable from terminal 3 (along two paths), yet one `prepare` call on
the terminal runs the initialization of stage 0 twice, not exactly
once. -/
theorem C1_counterexample :
    WfDag diamondIns ∧ reachable diamondIns 3 0 = true ∧
    (prepareTrace diamondIns 3).count 0 = 2 ∧
    ¬ (prepareTrace diamondIns 3).count 0 = 1 :=
  ⟨diamondIns_wf, by decide, by decide, by decide⟩

/-- C2 (amended): `Stage::execute` finalizes the shared layout once per
execute call, not once per run.  The terminal stage's call finalizes
first — its very first actions are setting the log level and calling
`finalize`, before any view is produced and before recursing into any
input — but every upstream stage's execute call then invokes `finalize`
again, so the number of finalize invocations equals the number of
execute calls. -/
theorem C2_finalize_once_per_execute_call
    (ins : Nat → List Nat) (t : Nat) (hwf : WfDag ins) :
    (executeTrace ins t).take 2 =
      [Ev.setLevel t debugLevel, Ev.finalize t] ∧
    ((executeTrace ins t).filter isFinalizeEv).length =
      callCnt ins (t + 1) t := by
  constructor
  · rfl
  · exact execTr_filter_finalize hwf (t + 1) t (by omega)

/-- C2 witness: the amended statement applied to the two-stage chain. -/
theorem C2_witness :
    (executeTrace chainIns 1).take 2 =
      [Ev.setLevel 1 debugLevel, Ev.finalize 1] ∧
    ((executeTrace chainIns 1).filter isFinalizeEv).length =
      callCnt chainIns 2 1 :=
  C2_finalize_once_per_execute_call chainIns 1 chainIns_wf

/-- C2 counterexample: in the acyclic two-stage chain, the single
pipeline run contains two finalize invocations — after the terminal
stage 1 finalizes, the upstream stage 0's execute call performs a
second finalization — so the layout is not finalized exactly once. -/
theorem C2_counterexample :
    WfDag chainIns ∧
    (executeTrace chainIns 1).filter isFinalizeEv =
      [Ev.finalize 1, Ev.finalize 0] ∧
    ¬ ((executeTrace chainIns 1).filter isFinalizeEv).length = 1 :=
  ⟨chainIns_wf, by decide, by decide⟩

/-- C5 (amended): a stage's metadata subtree node is added once per
prepare-phase call on that stage, not once overall: every `l_initialize`
appends a fresh subtree node named after its stage, so after `prepare`
on the terminal the shared metadata root holds, for each stage, one
node per path from the terminal to that stage.  A stage that is an
input of more than one downstream stage therefore receives a second
subtree node from the later prepare call. -/
theorem C5_metadata_subtree_per_prepare_call
    (ins : Nat → List Nat) (t : Nat) (md : List Nat) (hwf : WfDag ins) :
    metadataAfterPrepare ins t md = md ++ prepareTrace ins t ∧
    (∀ s, (metadataAfterPrepare ins t md).count s =
      md.count s + pathCount ins t s) := by
  have heq : metadataAfterPrepare ins t md = md ++ prepareTrace ins t :=
    prepMeta_eq hwf (t + 1) t (by omega) md
  refine ⟨heq, ?_⟩
  intro s
  rw [heq, List.count_append]
  rw [show (prepareTrace ins t).count s = pathCount ins t s from
    prepTr_count hwf (t + 1) t s (by omega)]

/-- C5 witness: the amended statement applied to the diamond DAG with an
initially empty metadata root. -/
theorem C5_witness :
    metadataAfterPrepare diamondIns 3 [] = [] ++ prepareTrace diamondIns 3 ∧
    (metadataAfterPrepare diamondIns 3 []).count 0 =
      List.count 0 [] + pathCount diamondIns 3 0 :=
  ⟨(C5_metadata_subtree_per_prepare_call diamondIns 3 [] diamondIns_wf).1,
    (C5_metadata_subtree_per_prepare_call diamondIns 3 [] diamondIns_wf).2 0⟩

/-- C5 counterexample: in the acyclic diamond DAG stage 0 is an input
of both stage 1 and stage 2; after one `prepare` on the terminal the
shared metadata root holds two subtree nodes for stage 0 — the second
prepare call re-created the subtree instead of leaving it alone. -/
theorem C5_counterexample :
    WfDag diamondIns ∧ reachable diamondIns 3 0 = true ∧
    (metadataAfterPrepare diamondIns 3 []).count 0 = 2 ∧
    ¬ (metadataAfterPrepare diamondIns 3 []).count 0 = 1 :=
  ⟨diamondIns_wf, by decide, by decide, by decide⟩

/-- C10 (confirmed): every `Stage::execute` call sets the stage's log
level to Debug before recursing into inputs or running any view: the
first event of the trace is the terminal's `setLevel Debug`, there is
one set-to-Debug event per execute call, and — replaying the levels
configured by `l_processOptions` from the "debug" and "verbose" options
of each stage — every ready / run / done hook executes while its
stage's effective level is Debug, whatever was configured. -/
theorem C10_execute_forces_debug_level
    (ins : Nat → List Nat) (t : Nat) (dbg : Nat → Bool) (vrb : Nat → Nat)
    (hwf : WfDag ins) :
    (executeTrace ins t).head? = some (Ev.setLevel t debugLevel) ∧
    ((executeTrace ins t).filter isSetDebugEv).length =
      callCnt ins (t + 1) t ∧
    debugOk (fun i => lProcessLevel (dbg i) (vrb i))
      (executeTrace ins t) = true :=
  ⟨rfl, execTr_filter_setDebug hwf (t + 1) t (by omega),
    execTr_debugOk hwf (t + 1) t (by omega) _⟩

/-- C10 witness: the two-stage chain with debug unset and verbosity 0
configured on every stage. -/
theorem C10_witness :
    (executeTrace chainIns 1).head? = some (Ev.setLevel 1 debugLevel) ∧
    ((executeTrace chainIns 1).filter isSetDebugEv).length =
      callCnt chainIns 2 1 ∧
    debugOk (fun i => lProcessLevel ((fun _ => false) i) ((fun _ => 0) i))
      (executeTrace chainIns 1) = true :=
  C10_execute_forces_debug_level chainIns 1 (fun _ => false) (fun _ => 0)
    chainIns_wf

/-- C3 (amended): registering two constructors in sequence under one
driver-type name raises no duplicate-detection error (registration is
total), but the subsequent lookup returns the constructor registered
FIRST, not last: `std::map::insert` leaves an existing key untouched,
so the second registration for a name is silently ignored. -/
theorem C3_first_registration_wins
    (m : Registry) (k : String) (v1 v2 : Nat) :
    (mapFind m k = none →
      getReaderCreator (registerReader (registerReader m k v1) k v2) k =
        some v1 ∧
      getFilterCreator (registerFilter (registerFilter m k v1) k v2) k =
        some v1 ∧
      getWriterCreator (registerWriter (registerWriter m k v1) k v2) k =
        some v1) ∧
    (∀ c, mapFind m k = some c →
      registerReader m k v1 = m ∧ registerFilter m k v1 = m ∧
        registerWriter m k v1 = m) := by
  constructor
  · intro h
    have hf : m.find? (fun p => p.1 == k) = none := by
      cases hfind : m.find? (fun p => p.1 == k) with
      | none => rfl
      | some q => unfold mapFind at h; rw [hfind] at h; simp at h
    have h1 : mapInsert m k v1 = m ++ [(k, v1)] := by
      unfold mapInsert; rw [hf]; rfl
    have h2 : (m ++ [(k, v1)]).find? (fun p => p.1 == k) = some (k, v1) := by
      rw [List.find?_append, hf]; simp
    have h3 : mapInsert (m ++ [(k, v1)]) k v2 = m ++ [(k, v1)] := by
      unfold mapInsert; rw [h2]; rfl
    have h4 : mapFind (m ++ [(k, v1)]) k = some v1 := by
      unfold mapFind; rw [h2]; rfl
    refine ⟨?_, ?_, ?_⟩ <;>
      simp only [getReaderCreator, getFilterCreator, getWriterCreator,
        registerReader, registerFilter, registerWriter, h1, h3, h4]
  · intro c h
    have hf : (m.find? (fun p => p.1 == k)).isSome = true := by
      cases hfind : m.find? (fun p => p.1 == k) with
      | none => unfold mapFind at h; rw [hfind] at h; simp at h
      | some q => rfl
    have : mapInsert m k v1 = m := by unfold mapInsert; rw [if_pos hf]
    exact ⟨this, this, this⟩

/-- C3 witness: a fresh name registered twice keeps the first
constructor in all three registries. -/
theorem C3_witness :
    getReaderCreator
      (registerReader (registerReader [] "readers.test" 0) "readers.test" 1)
      "readers.test" = some 0 ∧
    getFilterCreator
      (registerFilter (registerFilter [] "readers.test" 0) "readers.test" 1)
      "readers.test" = some 0 ∧
    getWriterCreator
      (registerWriter (registerWriter [] "readers.test" 0) "readers.test" 1)
      "readers.test" = some 0 :=
  (C3_first_registration_wins [] "readers.test" 0 1).1 (by decide)

/-- C3 counterexample: registering constructor 0 and then constructor 1
under the same name leaves the lookup returning constructor 0 — the
last registration does not win. -/
theorem C3_counterexample :
    getReaderCreator
      (registerReader (registerReader [] "readers.las" 0) "readers.las" 1)
      "readers.las" = some 0 ∧
    ¬ getReaderCreator
      (registerReader (registerReader [] "readers.las" 0) "readers.las" 1)
      "readers.las" = some 1 := by
  constructor <;> decide

/-- C8 (confirmed): `addConditionalOptions` never overwrites: after an
option (name, v1) is added, a conditional add of (name, v2) leaves the
options untouched, and they still hold v1 for that name. -/
theorem C8_addConditional_never_overwrites
    (V : Type) (opts : OptionsM V) (name : String) (v1 v2 : V) :
    addConditionalOptions (addOption opts name v1) [(name, v2)] =
      addOption opts name v1 ∧
    (name, v1) ∈ addOption opts name v1 := by
  constructor
  · simp [addConditionalOptions, hasOption, addOption]
  · simp [addOption]

/-- C9 (confirmed): `createReader`/`createFilter`/`createWriter` return
the stage produced by the registered constructor, fail with the
driver-not-found `pdal_error` naming the requested type exactly when no
constructor is registered under that name, and leave the registry
unchanged either way. -/
theorem C9_create_iff_registered (m : Registry) (type : String) :
    (getReaderCreator m type = none →
      createReader m type = (Except.error (readerErrMsg type), m)) ∧
    (∀ c, getReaderCreator m type = some c →
      createReader m type = (Except.ok c, m)) ∧
    (getFilterCreator m type = none →
      createFilter m type = (Except.error (filterErrMsg type), m)) ∧
    (∀ c, getFilterCreator m type = some c →
      createFilter m type = (Except.ok c, m)) ∧
    (getWriterCreator m type = none →
      createWriter m type = (Except.error (writerErrMsg type), m)) ∧
    (∀ c, getWriterCreator m type = some c →
      createWriter m type = (Except.ok c, m)) := by
  refine ⟨?_, ?_, ?_, ?_, ?_, ?_⟩ <;>
    first
    | (intro h; simp [createReader, createFilter, createWriter, h])
    | (intro c h; simp [createReader, createFilter, createWriter, h])

/-- C9 witness: an empty registry rejects the lookup with the exact
message; a one-entry registry returns the registered constructor. -/
theorem C9_witness :
    createReader [] "readers.sbet" =
      (Except.error (readerErrMsg "readers.sbet"), []) ∧
    createReader [("readers.sbet", 7)] "readers.sbet" =
      (Except.ok 7, [("readers.sbet", 7)]) :=
  ⟨(C9_create_iff_registered [] "readers.sbet").1 (by decide),
    (C9_create_iff_registered [("readers.sbet", 7)] "readers.sbet").2.1 7
      (by decide)⟩

/-- C6 (confirmed): `Stage::setSpatialReference` always updates the
in-memory reference field, writes the "spatialreference" and
"comp_spatialreference" nodes only when no "spatialreference" child
exists yet, and a second call changes the field again but leaves the
metadata subtree exactly as after the first call. -/
theorem C6_set_srs_metadata_once (m : MChildren) (sr1 sr2 : SpatialRef) :
    (setSpatialReference m sr1).1 = sr1 ∧
    (findSpatialChild m = none →
      (setSpatialReference m sr1).2 =
        m ++ [⟨"spatialreference", sr1.horizWKT, "SRS of this stage"⟩,
              ⟨"comp_spatialreference", sr1.compWKT, "SRS of this stage"⟩]) ∧
    ((findSpatialChild m).isSome = true →
      (setSpatialReference m sr1).2 = m) ∧
    (setSpatialReference (setSpatialReference m sr1).2 sr2).1 = sr2 ∧
    (setSpatialReference (setSpatialReference m sr1).2 sr2).2 =
      (setSpatialReference m sr1).2 := by
  refine ⟨rfl, ?_, ?_, rfl, ?_⟩
  · intro h
    simp [setSpatialReference, h]
  · intro h
    obtain ⟨c, hc⟩ := Option.isSome_iff_exists.1 h
    simp [setSpatialReference, hc]
  · cases hc : findSpatialChild m with
    | some c => simp [setSpatialReference, hc]
    | none =>
      have hfound : findSpatialChild
          (m ++ [⟨"spatialreference", sr1.horizWKT, "SRS of this stage"⟩,
                 ⟨"comp_spatialreference", sr1.compWKT,
                  "SRS of this stage"⟩]) =
          some ⟨"spatialreference", sr1.horizWKT, "SRS of this stage"⟩ := by
        unfold findSpatialChild at hc ⊢
        rw [List.find?_append, hc]
        rfl
      simp [setSpatialReference, hc, hfound]

/-- C4 (amended): `inferWriterDriver` returns the default text-writer
driver name for a case-insensitive "STDOUT" filename and for every
filename whose extension is absent (no dot) or empty (a bare trailing
dot); but for an extension with no entry in the extension-to-driver
table it returns the EMPTY string (the default-constructed map value),
not the text-writer driver. -/
theorem C4_infer_writer_driver_defaults
    (hasW : String → Bool) (filename : String) :
    (iequals filename "STDOUT" = true →
      inferWriterDriver hasW filename = "drivers.text.writer") ∧
    (extensionOf filename = "" →
      inferWriterDriver hasW filename = "drivers.text.writer") ∧
    (extensionOf filename = "." →
      inferWriterDriver hasW filename = "drivers.text.writer") ∧
    (iequals filename "STDOUT" = false →
      (strLower (extensionOf filename) == "") = false →
      (String.mk ((strLower (extensionOf filename)).data.drop 1) == "") =
        false →
      ((writerDrivers hasW).all (fun p =>
        !(p.1 == strLower (String.mk
          ((strLower (extensionOf filename)).data.drop 1))))) = true →
      inferWriterDriver hasW filename = "") := by
  refine ⟨?_, ?_, ?_, ?_⟩
  · intro h
    simp only [inferWriterDriver, h, if_true]
    exact writerDrivers_txt hasW
  · intro h
    by_cases hstd : iequals filename "STDOUT" = true
    · simp only [inferWriterDriver, hstd, if_true]
      exact writerDrivers_txt hasW
    · simp only [inferWriterDriver, h, hstd]
      simp only [show strLower "" = "" from rfl, beq_self_eq_true, if_true,
        Bool.false_eq_true, if_false]
      exact writerDrivers_txt hasW
  · intro h
    by_cases hstd : iequals filename "STDOUT" = true
    · simp only [inferWriterDriver, hstd, if_true]
      exact writerDrivers_txt hasW
    · simp only [inferWriterDriver, h, hstd]
      simp only [show strLower "." = "." from rfl,
        show (("." : String) == "") = false from rfl,
        show String.mk (("." : String).data.drop 1) = "" from rfl,
        beq_self_eq_true, if_true, Bool.false_eq_true, if_false]
      exact writerDrivers_txt hasW
  · intro hstd h2 h3 h4
    simp only [inferWriterDriver, hstd, h2, h3, Bool.false_eq_true,
      if_false]
    have hnone : (writerDrivers hasW).find? (fun p =>
        p.1 == strLower (String.mk
          ((strLower (extensionOf filename)).data.drop 1))) = none := by
      rw [List.find?_eq_none]
      intro p hp
      have := List.all_eq_true.1 h4 p hp
      simpa using this
    rw [List.drop_one] at hnone
    simp [lookupDefault, hnone]

/-- C4 witness: "stdout" (case-insensitive STDOUT), "STDOUT" itself (no
extension), "x." (bare-dot extension) all yield the text driver; the
unmapped extension of "x.unknownext" yields the empty string. -/
theorem C4_witness :
    inferWriterDriver (fun _ => false) "stdout" = "drivers.text.writer" ∧
    inferWriterDriver (fun _ => false) "STDOUT" = "drivers.text.writer" ∧
    inferWriterDriver (fun _ => false) "x." = "drivers.text.writer" ∧
    inferWriterDriver (fun _ => false) "x.unknownext" = "" :=
  ⟨(C4_infer_writer_driver_defaults (fun _ => false) "stdout").1 (by decide),
    ((C4_infer_writer_driver_defaults (fun _ => false) "STDOUT").2.1
      (by decide)),
    ((C4_infer_writer_driver_defaults (fun _ => false) "x.").2.2.1
      (by decide)),
    ((C4_infer_writer_driver_defaults (fun _ => false) "x.unknownext").2.2.2
      (by decide) (by decide) (by decide) (by decide))⟩

/-- C4 counterexample: "x.unknownext" has an extension with no entry in
the table, and `inferWriterDriver` returns the empty string for it, not
the default text-writer driver name the claim asserts. -/
theorem C4_counterexample :
    inferWriterDriver (fun _ => false) "x.unknownext" = "" ∧
    ¬ inferWriterDriver (fun _ => false) "x.unknownext" =
      "drivers.text.writer" := by
  constructor <;> decide

/-- C7 (confirmed): plugin discovery hands exactly one entry per
canonical basename to the loader (the basename map keys are distinct);
when a regular file and a symlink collapse to one basename the symlink
is chosen in either directory-iteration order; and for
libpdal_plugin_writer_foo.1.2.so (regular file) together with symlink
libpdal_plugin_writer_foo.so, exactly one plugin named "writer_foo" is
registered, from the symlink. -/
theorem C7_one_plugin_per_basename_symlink_preferred
    (entries : List DirEntry) (n1 n2 : String) :
    ((collectPlugins entries).map (fun p => p.1)).Nodup ∧
    (isPluginCandidate n1 = true → isPluginCandidate n2 = true →
      basenameOf n1 = basenameOf n2 →
      collectPlugins [(n1, false), (n2, true)] =
        [(basenameOf n1, (n2, true))] ∧
      collectPlugins [(n2, true), (n1, false)] =
        [(basenameOf n1, (n2, true))]) ∧
    registeredPlugins
        [("libpdal_plugin_writer_foo.1.2.so", false),
         ("libpdal_plugin_writer_foo.so", true)] = ["writer_foo"] ∧
    registeredPlugins
        [("libpdal_plugin_writer_foo.so", true),
         ("libpdal_plugin_writer_foo.1.2.so", false)] = ["writer_foo"] ∧
    collectPlugins
        [("libpdal_plugin_writer_foo.1.2.so", false),
         ("libpdal_plugin_writer_foo.so", true)] =
      [("libpdal_plugin_writer_foo",
        ("libpdal_plugin_writer_foo.so", true))] := by
  refine ⟨collect_keys_nodup entries [] (by simp), ?_, by decide, by decide,
    by decide⟩
  intro h1 h2 hb
  constructor
  · simp only [collectPlugins, List.foldl_cons, List.foldl_nil]
    rw [show scanStep [] (n1, false) = [(basenameOf n1, (n1, false))] from by
      simp [scanStep, h1, pmFind]]
    simp [scanStep, h2, pmFind, pmUpdate, ← hb]
  · simp only [collectPlugins, List.foldl_cons, List.foldl_nil]
    rw [show scanStep [] (n2, true) = [(basenameOf n2, (n2, true))] from by
      simp [scanStep, h2, pmFind]]
    simp [scanStep, h1, pmFind, pmUpdate, ← hb]

/-- C7 witness: the general pair property applied to the two example
filenames, together with the key-distinctness of the scanned map. -/
theorem C7_witness :
    ((collectPlugins
        [("libpdal_plugin_writer_foo.1.2.so", false),
         ("libpdal_plugin_writer_foo.so", true)]).map
      (fun p => p.1)).Nodup ∧
    collectPlugins
        [("libpdal_plugin_writer_foo.1.2.so", false),
         ("libpdal_plugin_writer_foo.so", true)] =
      [(basenameOf "libpdal_plugin_writer_foo.1.2.so",
        ("libpdal_plugin_writer_foo.so", true))] ∧
    collectPlugins
        [("libpdal_plugin_writer_foo.so", true),
         ("libpdal_plugin_writer_foo.1.2.so", false)] =
      [(basenameOf "libpdal_plugin_writer_foo.1.2.so",
        ("libpdal_plugin_writer_foo.so", true))] := by
  obtain ⟨ha, hpair, -⟩ :=
    C7_one_plugin_per_basename_symlink_preferred
      [("libpdal_plugin_writer_foo.1.2.so", false),
       ("libpdal_plugin_writer_foo.so", true)]
      "libpdal_plugin_writer_foo.1.2.so" "libpdal_plugin_writer_foo.so"
  obtain ⟨hfwd, hrev⟩ := hpair (by decide) (by decide) (by decide)
  exact ⟨ha, hfwd, hrev⟩

/-- C6 witness: setting a spatial reference on a stage with empty
metadata writes the two nodes; a second setter call updates the field
but leaves the metadata unchanged. -/
theorem C6_witness :
    (setSpatialReference [] ⟨"HW1", "CW1"⟩).1 = ⟨"HW1", "CW1"⟩ ∧
    (setSpatialReference [] ⟨"HW1", "CW1"⟩).2 =
      [] ++ [⟨"spatialreference", "HW1", "SRS of this stage"⟩,
             ⟨"comp_spatialreference", "CW1", "SRS of this stage"⟩] ∧
    (setSpatialReference (setSpatialReference [] ⟨"HW1", "CW1"⟩).2
      ⟨"HW2", "CW2"⟩).1 = ⟨"HW2", "CW2"⟩ ∧
    (setSpatialReference (setSpatialReference [] ⟨"HW1", "CW1"⟩).2
      ⟨"HW2", "CW2"⟩).2 = (setSpatialReference [] ⟨"HW1", "CW1"⟩).2 :=
  ⟨(C6_set_srs_metadata_once [] ⟨"HW1", "CW1"⟩ ⟨"HW2", "CW2"⟩).1,
    (C6_set_srs_metadata_once [] ⟨"HW1", "CW1"⟩ ⟨"HW2", "CW2"⟩).2.1
      (by decide),
    (C6_set_srs_metadata_once [] ⟨"HW1", "CW1"⟩ ⟨"HW2", "CW2"⟩).2.2.2.1,
    (C6_set_srs_metadata_once [] ⟨"HW1", "CW1"⟩ ⟨"HW2", "CW2"⟩).2.2.2.2⟩
